import Mathlib

/-! Thread locals block of the Maxine native substrate.

A shallow embedding of `Native/share/threadLocals.h`: the two layout macros
`ETLA_FROM_TLBLOCK` and `NATIVE_THREAD_LOCALS_FROM_TLBLOCK`, the `ThreadLocal`
enumeration produced by `FOR_ALL_THREAD_LOCALS`, and the accessor macros
`tla_store`, `tla_load`, `tla_addressOf` and `tla_store3`.

Conventions of the embedding.

* `Address` is the unsigned machine word of `word.h`.  An address is a `Nat`;
  every arithmetic result is reduced modulo `2 ^ (8 * sizeof(Address))`.
  `size_t` is taken to have the width of `Address`.
* `os.h`, `word.h` and the definitions of `virtualMemory_getPageSize()` and
  `tlaSize()` are not part of the header, so `sizeof(Address)`, the page size and
  the TLA size are the three fields of `Platform`.
* `int` is the 32-bit two-complement integer; the product `tlaSize() * 3` is an
  `int` product.
* Memory is a map from the address of a word to the word stored there; the
  accessors only perform word-sized accesses.
-/

namespace Maxine

/-! ## Platform parameters and machine arithmetic -/

/-- Values the header obtains from `word.h`, `os.h` and the externs it declares:
`sizeof(Address)` in bytes, `virtualMemory_getPageSize()` and `tlaSize()`
(declared `extern int tlaSize()`). -/
structure Platform where
  wordSize : Nat
  pageSize : Nat
  tlaSize : Int
  deriving Repr

/-- Number of values of an `Address`: `2 ^ (8 * sizeof(Address))`. -/
def Platform.modulus (p : Platform) : Nat := 2 ^ (8 * p.wordSize)

/-- Conversion of an integer to `Address` (an unsigned word): reduction modulo
`2 ^ (8 * sizeof(Address))`. -/
def wrap (p : Platform) (x : Int) : Nat := (x % (p.modulus : Int)).toNat

/-- Largest value of a C `int`. -/
def INT_MAX : Int := 2147483647

/-- Result of an `int` operation whose mathematical value is `x`: the
two-complement 32-bit value congruent to `x`. -/
def intWrap (x : Int) : Int := (x + 2147483648) % 4294967296 - 2147483648

/-! ## Layout macros -/

/-- The macro
`ETLA_FROM_TLBLOCK(tlBlock) = (TLA) (tlBlock + virtualMemory_getPageSize()
  - sizeof(Address) + tlaSize())`,
evaluated left to right in `Address` arithmetic. -/
def ETLA_FROM_TLBLOCK (p : Platform) (tlBlock : Nat) : Nat :=
  wrap p ((wrap p ((wrap p ((tlBlock : Int) + (p.pageSize : Int)) : Int)
    - (p.wordSize : Int)) : Int) + (wrap p p.tlaSize : Int))

/-- The macro
`NATIVE_THREAD_LOCALS_FROM_TLBLOCK(tlBlock) = (NativeThreadLocals) (tlBlock
  + virtualMemory_getPageSize() - sizeof(Address) + (tlaSize() * 3))`;
the product is an `int` product, converted to `Address` for the sum. -/
def NATIVE_THREAD_LOCALS_FROM_TLBLOCK (p : Platform) (tlBlock : Nat) : Nat :=
  wrap p ((wrap p ((wrap p ((tlBlock : Int) + (p.pageSize : Int)) : Int)
    - (p.wordSize : Int)) : Int) + (wrap p (intWrap (p.tlaSize * 3)) : Int))

/-- Size in bytes of `NativeThreadLocalsStruct`: ten word-sized fields
(`stackBase`, `stackSize`, `handle`, `tlBlock`, `tlBlockSize`, `stackYellowZone`,
`stackRedZone`, `stackRedZoneIsProtectedByVM`, `stackBlueZone`, `osData`). -/
def sizeofNativeThreadLocalsStruct (p : Platform) : Nat := 10 * p.wordSize

/-! ## The ThreadLocal enumeration -/

/-- The enumeration `ThreadLocal_t`: one constant per line of
`FOR_ALL_THREAD_LOCALS`. -/
inductive ThreadLocal where
  | SAFEPOINT_LATCH
  | ETLA
  | DTLA
  | TTLA
  | NATIVE_THREAD_LOCALS
  | FORWARD_LINK
  | BACKWARD_LINK
  | ID
  | JNI_ENV
  | LAST_JAVA_FRAME_ANCHOR
  | TRAP_NUMBER
  | TRAP_INSTRUCTION_POINTER
  | TRAP_FAULT_ADDRESS
  | TRAP_LATCH_REGISTER
  | STACK_REFERENCE_MAP
  | STACK_REFERENCE_MAP_SIZE
  deriving DecidableEq, Repr

/-- The value `DECLARE_THREAD_LOCAL(name, index)` gives each constant. -/
def ThreadLocal.index : ThreadLocal → Int
  | .SAFEPOINT_LATCH => 0
  | .ETLA => 1
  | .DTLA => 2
  | .TTLA => 3
  | .NATIVE_THREAD_LOCALS => 4
  | .FORWARD_LINK => 5
  | .BACKWARD_LINK => 6
  | .ID => 9
  | .JNI_ENV => 11
  | .LAST_JAVA_FRAME_ANCHOR => 12
  | .TRAP_NUMBER => 15
  | .TRAP_INSTRUCTION_POINTER => 16
  | .TRAP_FAULT_ADDRESS => 17
  | .TRAP_LATCH_REGISTER => 18
  | .STACK_REFERENCE_MAP => 22
  | .STACK_REFERENCE_MAP_SIZE => 23

/-- The constants in the order `FOR_ALL_THREAD_LOCALS` lists them. -/
def FOR_ALL_THREAD_LOCALS : List ThreadLocal :=
  [.SAFEPOINT_LATCH, .ETLA, .DTLA, .TTLA, .NATIVE_THREAD_LOCALS, .FORWARD_LINK,
   .BACKWARD_LINK, .ID, .JNI_ENV, .LAST_JAVA_FRAME_ANCHOR, .TRAP_NUMBER,
   .TRAP_INSTRUCTION_POINTER, .TRAP_FAULT_ADDRESS, .TRAP_LATCH_REGISTER,
   .STACK_REFERENCE_MAP, .STACK_REFERENCE_MAP_SIZE]

/-! ## Memory and the accessor macros -/

/-- Memory: the word stored at each address. -/
abbrev Mem := Nat → Nat

/-- The pointer `(Address *) tla + name`: pointer arithmetic scales `name` by
`sizeof(Address)`. -/
def slotPointer (p : Platform) (tla : Nat) (name : Int) : Nat :=
  wrap p ((tla : Int) + name * (p.wordSize : Int))

/-- The assignment `*ptr = (Address) (value)`. -/
def writeWord (p : Platform) (m : Mem) (ptr : Nat) (value : Int) : Mem :=
  fun a => if a = ptr then wrap p value else m a

/-- The macro
`tla_store(tla, name, value)`: `*((Address *) tla + name) = (Address) (value)`. -/
def tla_store (p : Platform) (m : Mem) (tla : Nat) (name : Int) (value : Int) : Mem :=
  writeWord p m (slotPointer p tla name) value

/-- The macro `tla_load(type, tla, name)`: `(type) *((Address *) tla + name)`,
with `type` an unsigned word type such as `Address` or `TLA`. -/
def tla_load (p : Platform) (m : Mem) (tla : Nat) (name : Int) : Nat :=
  m (slotPointer p tla name)

/-- The macro
`tla_addressOf(tla, name)`: `(Address) tla + (name * sizeof(Address))`; `name`
is converted to `size_t` for the product. -/
def tla_addressOf (p : Platform) (tla : Nat) (name : Int) : Nat :=
  wrap p ((wrap p (tla : Int) : Int)
    + (wrap p ((wrap p name : Int) * (p.wordSize : Int)) : Int))

/-- The macro `tla_store3(tla, name, value)`: three assignments in sequence, each
locating its target copy by loading the `ETLA`, `DTLA` or `TTLA` slot of `tla`
from the memory the previous assignment left. -/
def tla_store3 (p : Platform) (m : Mem) (tla : Nat) (name : Int) (value : Int) : Mem :=
  let m1 := writeWord p m
    (slotPointer p (tla_load p m tla ThreadLocal.ETLA.index) name) value
  let m2 := writeWord p m1
    (slotPointer p (tla_load p m1 tla ThreadLocal.DTLA.index) name) value
  writeWord p m2
    (slotPointer p (tla_load p m2 tla ThreadLocal.TTLA.index) name) value

/-! ## Regions of a thread locals block -/

/-- A range of bytes `[start, start + size)`. -/
structure Region where
  start : Nat
  size : Nat
  deriving DecidableEq, Repr

/-- The byte `x` lies in the range. -/
def Region.contains (r : Region) (x : Nat) : Prop :=
  r.start ≤ x ∧ x < r.start + r.size

instance (r : Region) (x : Nat) : Decidable (r.contains x) := by
  delta Region.contains; infer_instance

/-- Two ranges share no byte: one of them is empty or one ends before the other
starts. -/
def Region.disjoint (r s : Region) : Prop :=
  r.size = 0 ∨ s.size = 0 ∨ r.start + r.size ≤ s.start ∨ s.start + s.size ≤ r.start

instance (r s : Region) : Decidable (r.disjoint s) := by
  delta Region.disjoint; infer_instance

/-- The unmapped page at the start of the block (first box of the layout
diagram): `[tlBlock, tlBlock + pageSize)`. -/
def unmappedPage (p : Platform) (tlBlock : Nat) : Region :=
  ⟨tlBlock, p.pageSize⟩

/-- The triggered TLA, the `tlaSize()` bytes that end where the enabled TLA
starts. -/
def triggeredRegion (p : Platform) (tlBlock : Nat) : Region :=
  ⟨wrap p ((ETLA_FROM_TLBLOCK p tlBlock : Int) - p.tlaSize), p.tlaSize.toNat⟩

/-- The enabled TLA, the `tlaSize()` bytes from `ETLA_FROM_TLBLOCK(tlBlock)`. -/
def enabledRegion (p : Platform) (tlBlock : Nat) : Region :=
  ⟨ETLA_FROM_TLBLOCK p tlBlock, p.tlaSize.toNat⟩

/-- The disabled TLA, the `tlaSize()` bytes that follow the enabled TLA. -/
def disabledRegion (p : Platform) (tlBlock : Nat) : Region :=
  ⟨wrap p ((ETLA_FROM_TLBLOCK p tlBlock : Int) + p.tlaSize), p.tlaSize.toNat⟩

/-- The `NativeThreadLocalsStruct` at
`NATIVE_THREAD_LOCALS_FROM_TLBLOCK(tlBlock)`. -/
def nativeRegion (p : Platform) (tlBlock : Nat) : Region :=
  ⟨NATIVE_THREAD_LOCALS_FROM_TLBLOCK p tlBlock, sizeofNativeThreadLocalsStruct p⟩

/-! ## Blocks whose three copies point at each other -/

/-- The addresses of the three TLA copies of one thread. -/
structure Block where
  etla : Nat
  dtla : Nat
  ttla : Nat
  deriving DecidableEq, Repr

/-- The `tlaSize()` bytes of the TLA copy at `tla`. -/
def tlaRegion (p : Platform) (tla : Nat) : Region := ⟨tla, p.tlaSize.toNat⟩

/-- The address `tla` is one of the three copies of the block. -/
def Block.hasCopy (blk : Block) (tla : Nat) : Prop :=
  tla = blk.etla ∨ tla = blk.dtla ∨ tla = blk.ttla

instance (blk : Block) (tla : Nat) : Decidable (blk.hasCopy tla) := by
  delta Block.hasCopy; infer_instance

/-- The copy at `tla` holds the addresses of the three copies in its `ETLA`,
`DTLA` and `TTLA` slots. -/
def selfPointersAt (p : Platform) (m : Mem) (blk : Block) (tla : Nat) : Prop :=
  tla_load p m tla ThreadLocal.ETLA.index = blk.etla ∧
  tla_load p m tla ThreadLocal.DTLA.index = blk.dtla ∧
  tla_load p m tla ThreadLocal.TTLA.index = blk.ttla

instance (p : Platform) (m : Mem) (blk : Block) (tla : Nat) :
    Decidable (selfPointersAt p m blk tla) := by
  delta selfPointersAt; infer_instance

/-- A well-formed block: words are not empty, every declared slot (indices up to
23) fits in a TLA, the three copies lie in the address space without wrapping,
are pairwise disjoint, and each holds the three self pointers. -/
def WellFormed (p : Platform) (m : Mem) (blk : Block) : Prop :=
  0 < p.wordSize ∧
  24 * (p.wordSize : Int) ≤ p.tlaSize ∧
  (blk.etla : Int) + p.tlaSize ≤ p.modulus ∧
  (blk.dtla : Int) + p.tlaSize ≤ p.modulus ∧
  (blk.ttla : Int) + p.tlaSize ≤ p.modulus ∧
  (tlaRegion p blk.etla).disjoint (tlaRegion p blk.dtla) ∧
  (tlaRegion p blk.etla).disjoint (tlaRegion p blk.ttla) ∧
  (tlaRegion p blk.dtla).disjoint (tlaRegion p blk.ttla) ∧
  selfPointersAt p m blk blk.etla ∧
  selfPointersAt p m blk blk.dtla ∧
  selfPointersAt p m blk blk.ttla

instance (p : Platform) (m : Mem) (blk : Block) : Decidable (WellFormed p m blk) := by
  delta WellFormed; infer_instance

/-- The slot `name` lies inside a TLA: `0 ≤ name` and its word ends within
`tlaSize()` bytes. -/
def slotInside (p : Platform) (name : Int) : Prop :=
  0 ≤ name ∧ (name + 1) * (p.wordSize : Int) ≤ p.tlaSize

instance (p : Platform) (name : Int) : Decidable (slotInside p name) := by
  delta slotInside; infer_instance

/-- The number of slots of a TLA, `tlaSize() / sizeof(Address)`. -/
def slotCount (p : Platform) : Int := p.tlaSize / (p.wordSize : Int)

/-! ## A concrete platform and block -/

/-- A 64-bit platform: 8-byte words, 4096-byte pages, TLAs of 24 words. -/
def sample64 : Platform := ⟨8, 4096, 192⟩

/-- The block at base `8192` on `sample64`, copies as the layout macros place
them. -/
def sampleBlock : Block := ⟨12472, 12664, 12280⟩

/-- Memory that is zero except for the self pointers of `sampleBlock`. -/
def sampleMem : Mem := fun a =>
  if a = 12480 ∨ a = 12672 ∨ a = 12288 then 12472
  else if a = 12488 ∨ a = 12680 ∨ a = 12296 then 12664
  else if a = 12496 ∨ a = 12688 ∨ a = 12304 then 12280
  else 0

/-- A 64-bit platform whose TLA size exceeds `INT_MAX / 3`, so that the `int`
product `tlaSize() * 3` overflows. -/
def oversized64 : Platform := ⟨8, 4096, 1431655766⟩

/-! ## Blocks placed by the layout macros, slot words, call sequences -/

/-- The three copies of the block at `tlBlock`, where the layout macros and the
diagram place them. -/
def layoutBlock (p : Platform) (tlBlock : Nat) : Block :=
  ⟨ETLA_FROM_TLBLOCK p tlBlock, (disabledRegion p tlBlock).start,
   (triggeredRegion p tlBlock).start⟩

/-- The bytes of the word that `tla_addressOf(tla, name)` addresses. -/
def slotWord (p : Platform) (tla : Nat) (name : Int) : Region :=
  ⟨tla_addressOf p tla name, p.wordSize⟩

/-- The arguments of one `tla_store3(tla, name, value)` call. -/
structure Store3Call where
  tla : Nat
  name : Int
  value : Int
  deriving DecidableEq, Repr

/-- The memory after a sequence of `tla_store3` calls, executed in order. -/
def tla_store3_calls (p : Platform) (m : Mem) : List Store3Call → Mem
  | [] => m
  | c :: rest => tla_store3_calls p (tla_store3 p m c.tla c.name c.value) rest

/-- The slot index is none of the self pointers `ETLA`, `DTLA`, `TTLA`. -/
def notSelfPointer (name : Int) : Prop :=
  name ≠ ThreadLocal.ETLA.index ∧ name ≠ ThreadLocal.DTLA.index ∧
  name ≠ ThreadLocal.TTLA.index

instance (name : Int) : Decidable (notSelfPointer name) := by
  delta notSelfPointer; infer_instance

/-- A `tla_store3` call on a copy of the block, to an in-range slot that is not a
self pointer. -/
def Store3Call.plain (p : Platform) (blk : Block) (c : Store3Call) : Prop :=
  blk.hasCopy c.tla ∧ slotInside p c.name ∧ notSelfPointer c.name

instance (p : Platform) (blk : Block) (c : Store3Call) : Decidable (c.plain p blk) := by
  delta Store3Call.plain; infer_instance

/-! ## Machine arithmetic lemmas -/

theorem modulus_pos (p : Platform) : 0 < p.modulus := by
  unfold Platform.modulus; positivity

theorem wrap_cast (p : Platform) (x : Int) :
    (wrap p x : Int) = x % (p.modulus : Int) := by
  unfold wrap
  have h : (0 : Int) < (p.modulus : Int) := by exact_mod_cast modulus_pos p
  exact Int.toNat_of_nonneg (Int.emod_nonneg _ (ne_of_gt h))

theorem wrap_lt (p : Platform) (x : Int) : wrap p x < p.modulus := by
  have h : (0 : Int) < (p.modulus : Int) := by exact_mod_cast modulus_pos p
  have := Int.emod_lt_of_pos x h
  have hc := wrap_cast p x
  omega

theorem wrap_congr (p : Platform) {x y : Int}
    (h : x % (p.modulus : Int) = y % (p.modulus : Int)) : wrap p x = wrap p y := by
  unfold wrap; rw [h]

theorem wrap_of_range (p : Platform) {x : Int} (h0 : 0 ≤ x)
    (h1 : x < (p.modulus : Int)) : (wrap p x : Int) = x := by
  rw [wrap_cast]; exact Int.emod_eq_of_lt h0 h1

theorem wrap_add_left (p : Platform) (x y : Int) :
    wrap p ((wrap p x : Int) + y) = wrap p (x + y) := by
  apply wrap_congr; rw [wrap_cast]; exact Int.emod_add_cancel_right _ |>.mpr (Int.emod_emod _ _)

theorem wrap_add_right (p : Platform) (x y : Int) :
    wrap p (x + (wrap p y : Int)) = wrap p (x + y) := by
  rw [add_comm, wrap_add_left, add_comm]

theorem wrap_sub_left (p : Platform) (x y : Int) :
    wrap p ((wrap p x : Int) - y) = wrap p (x - y) := by
  rw [sub_eq_add_neg, wrap_add_left, ← sub_eq_add_neg]

theorem wrap_mul_left (p : Platform) (x y : Int) :
    wrap p ((wrap p x : Int) * y) = wrap p (x * y) := by
  apply wrap_congr; rw [wrap_cast, Int.mul_emod (x % _) y, Int.emod_emod, ← Int.mul_emod]

theorem intWrap_of_range {x : Int} (h0 : -2147483648 ≤ x) (h1 : x ≤ 2147483647) :
    intWrap x = x := by
  unfold intWrap; omega

/-! ## Slot pointers inside a copy -/

theorem slotPointer_inside (p : Platform) (tla : Nat) (name : Int)
    (hW : 0 < p.wordSize) (hin : slotInside p name) (hfit : (tla : Int) + p.tlaSize ≤ p.modulus) :
    (slotPointer p tla name : Int) = tla + name * (p.wordSize : Int) := by
  obtain ⟨h0, h1⟩ := hin
  have hmul : (name + 1) * (p.wordSize : Int) = name * (p.wordSize : Int) + p.wordSize := by
    ring
  have hnn : 0 ≤ name * (p.wordSize : Int) := mul_nonneg h0 (Int.ofNat_nonneg _)
  unfold slotPointer
  apply wrap_of_range <;> omega

theorem slotPointer_inj_index (p : Platform) (tla : Nat) (i j : Int)
    (hW : 0 < p.wordSize) (hi : slotInside p i) (hj : slotInside p j)
    (hfit : (tla : Int) + p.tlaSize ≤ p.modulus)
    (h : slotPointer p tla i = slotPointer p tla j) : i = j := by
  have e1 := slotPointer_inside p tla i hW hi hfit
  have e2 := slotPointer_inside p tla j hW hj hfit
  have hW0 : (p.wordSize : Int) ≠ 0 := by omega
  have : i * (p.wordSize : Int) = j * (p.wordSize : Int) := by
    rw [h] at e1; omega
  exact mul_right_cancel₀ hW0 this

theorem slotPointer_ne_of_apart (p : Platform) (x y : Nat) (i j : Int)
    (hW : 0 < p.wordSize) (hi : slotInside p i) (hj : slotInside p j)
    (hx : (x : Int) + p.tlaSize ≤ p.modulus) (hy : (y : Int) + p.tlaSize ≤ p.modulus)
    (hxy : (x : Int) + p.tlaSize ≤ y ∨ (y : Int) + p.tlaSize ≤ x) :
    slotPointer p x i ≠ slotPointer p y j := by
  intro h
  have e1 := slotPointer_inside p x i hW hi hx
  have e2 := slotPointer_inside p y j hW hj hy
  rw [h] at e1
  obtain ⟨hi0, hi1⟩ := hi
  obtain ⟨hj0, hj1⟩ := hj
  have hmi : (i + 1) * (p.wordSize : Int) = i * (p.wordSize : Int) + p.wordSize := by ring
  have hmj : (j + 1) * (p.wordSize : Int) = j * (p.wordSize : Int) + p.wordSize := by ring
  have hni : 0 ≤ i * (p.wordSize : Int) := mul_nonneg hi0 (Int.ofNat_nonneg _)
  have hnj : 0 ≤ j * (p.wordSize : Int) := mul_nonneg hj0 (Int.ofNat_nonneg _)
  omega

/-- The arithmetic content of `WellFormed`. -/
theorem WellFormed.layout {p : Platform} {m : Mem} {blk : Block}
    (h : WellFormed p m blk) :
    0 < p.wordSize ∧ 24 * (p.wordSize : Int) ≤ p.tlaSize ∧
    (blk.etla : Int) + p.tlaSize ≤ p.modulus ∧
    (blk.dtla : Int) + p.tlaSize ≤ p.modulus ∧
    (blk.ttla : Int) + p.tlaSize ≤ p.modulus ∧
    ((blk.etla : Int) + p.tlaSize ≤ blk.dtla ∨ (blk.dtla : Int) + p.tlaSize ≤ blk.etla) ∧
    ((blk.etla : Int) + p.tlaSize ≤ blk.ttla ∨ (blk.ttla : Int) + p.tlaSize ≤ blk.etla) ∧
    ((blk.dtla : Int) + p.tlaSize ≤ blk.ttla ∨ (blk.ttla : Int) + p.tlaSize ≤ blk.dtla) := by
  obtain ⟨hW, hS, hE, hD, hT, dED, dET, dDT, -, -, -⟩ := h
  simp only [Region.disjoint, tlaRegion] at dED dET dDT
  refine ⟨hW, hS, hE, hD, hT, ?_, ?_, ?_⟩ <;> omega

theorem slotInside_of_lt24 {p : Platform} {i : Int}
    (hS : 24 * (p.wordSize : Int) ≤ p.tlaSize) (h0 : 0 ≤ i) (h1 : i ≤ 23) :
    slotInside p i := by
  refine ⟨h0, ?_⟩
  have : (i + 1) * (p.wordSize : Int) ≤ 24 * (p.wordSize : Int) :=
    mul_le_mul_of_nonneg_right (by omega) (Int.ofNat_nonneg _)
  omega

theorem ThreadLocal.index_range (n : ThreadLocal) : 0 ≤ n.index ∧ n.index ≤ 23 := by
  cases n <;> decide


theorem ThreadLocal.slotInside {p : Platform} (n : ThreadLocal)
    (hS : 24 * (p.wordSize : Int) ≤ p.tlaSize) : slotInside p n.index :=
  slotInside_of_lt24 hS n.index_range.1 n.index_range.2

theorem WellFormed.fits {p : Platform} {m : Mem} {blk : Block}
    (h : WellFormed p m blk) {x : Nat} (hx : blk.hasCopy x) :
    (x : Int) + p.tlaSize ≤ p.modulus := by
  obtain ⟨-, -, hE, hD, hT, -⟩ := h.layout
  rcases hx with rfl | rfl | rfl <;> assumption

theorem WellFormed.selfPointers {p : Platform} {m : Mem} {blk : Block}
    (h : WellFormed p m blk) {x : Nat} (hx : blk.hasCopy x) :
    selfPointersAt p m blk x := by
  obtain ⟨-, -, -, -, -, -, -, -, sE, sD, sT⟩ := h
  rcases hx with rfl | rfl | rfl <;> assumption

theorem WellFormed.eq_or_apart {p : Platform} {m : Mem} {blk : Block}
    (h : WellFormed p m blk) {x y : Nat} (hx : blk.hasCopy x) (hy : blk.hasCopy y) :
    x = y ∨ ((x : Int) + p.tlaSize ≤ y ∨ (y : Int) + p.tlaSize ≤ x) := by
  obtain ⟨-, -, -, -, -, aED, aET, aDT⟩ := h.layout
  rcases hx with rfl | rfl | rfl <;> rcases hy with rfl | rfl | rfl <;> omega

/-- In a well-formed block two in-range slots share an address only when they are
the same slot of the same copy. -/
theorem WellFormed.slotPointer_eq {p : Platform} {m : Mem} {blk : Block}
    (h : WellFormed p m blk) {x y : Nat} (hx : blk.hasCopy x) (hy : blk.hasCopy y)
    {i j : Int} (hi : slotInside p i) (hj : slotInside p j)
    (heq : slotPointer p x i = slotPointer p y j) : x = y ∧ i = j := by
  have hW := h.layout.1
  rcases h.eq_or_apart hx hy with rfl | hap
  · exact ⟨rfl, slotPointer_inj_index p x i j hW hi hj (h.fits hx) heq⟩
  · exact absurd heq (slotPointer_ne_of_apart p x y i j hW hi hj (h.fits hx) (h.fits hy) hap)

/-- On a well-formed block, when the stored slot is not a self pointer that a
later assignment of the macro still has to read through `tla`, the three
assignments of `tla_store3` hit the slot of the enabled, the disabled and the
triggered copy. -/
theorem tla_store3_unfold {p : Platform} {m : Mem} {blk : Block}
    (hwf : WellFormed p m blk) {tla : Nat} (htla : blk.hasCopy tla)
    {i : Int} (hi : slotInside p i) (v : Int)
    (hD : i = ThreadLocal.DTLA.index → tla ≠ blk.etla)
    (hT : i = ThreadLocal.TTLA.index → tla = blk.ttla) :
    tla_store3 p m tla i v =
      writeWord p (writeWord p (writeWord p m (slotPointer p blk.etla i) v)
        (slotPointer p blk.dtla i) v) (slotPointer p blk.ttla i) v := by
  obtain ⟨sE, sD, sT⟩ := hwf.selfPointers htla
  have hS := hwf.layout.2.1
  have cE : blk.hasCopy blk.etla := Or.inl rfl
  have cD : blk.hasCopy blk.dtla := Or.inr (Or.inl rfl)
  have cT : blk.hasCopy blk.ttla := Or.inr (Or.inr rfl)
  have n2 : slotPointer p tla ThreadLocal.DTLA.index ≠ slotPointer p blk.etla i := by
    intro heq
    obtain ⟨hx, hidx⟩ := hwf.slotPointer_eq htla cE (ThreadLocal.DTLA.slotInside hS) hi heq
    exact hD hidx.symm hx
  have n3 : slotPointer p tla ThreadLocal.TTLA.index ≠ slotPointer p blk.etla i := by
    intro heq
    obtain ⟨hx, hidx⟩ := hwf.slotPointer_eq htla cE (ThreadLocal.TTLA.slotInside hS) hi heq
    have hap := hwf.layout.2.2.2.2.2.2.1
    have := hT hidx.symm
    have h24 := hwf.layout.2.1
    have hW := hwf.layout.1
    rw [hx] at this
    omega
  have n3d : slotPointer p tla ThreadLocal.TTLA.index ≠ slotPointer p blk.dtla i := by
    intro heq
    obtain ⟨hx, hidx⟩ := hwf.slotPointer_eq htla cD (ThreadLocal.TTLA.slotInside hS) hi heq
    have hap := hwf.layout.2.2.2.2.2.2.2
    have := hT hidx.symm
    have h24 := hwf.layout.2.1
    have hW := hwf.layout.1
    rw [hx] at this
    omega
  have l2 : tla_load p (writeWord p m (slotPointer p blk.etla i) v) tla
      ThreadLocal.DTLA.index = blk.dtla := by
    unfold tla_load writeWord
    rw [if_neg n2]; exact sD
  have l3 : tla_load p (writeWord p (writeWord p m (slotPointer p blk.etla i) v)
      (slotPointer p blk.dtla i) v) tla ThreadLocal.TTLA.index = blk.ttla := by
    unfold tla_load writeWord
    rw [if_neg n3d, if_neg n3]; exact sT
  unfold tla_store3
  dsimp only
  rw [sE, l2, l3]

theorem wrap_natCast_of_lt (p : Platform) {v : Nat} (hv : v < p.modulus) :
    wrap p (v : Int) = v := by
  have := wrap_of_range p (Int.ofNat_nonneg v) (by exact_mod_cast hv)
  exact_mod_cast this

/-! ## Closed forms of the layout macros -/

theorem ETLA_FROM_TLBLOCK_eq (p : Platform) (b : Nat) :
    ETLA_FROM_TLBLOCK p b =
      wrap p ((b : Int) + p.pageSize - p.wordSize + p.tlaSize) := by
  unfold ETLA_FROM_TLBLOCK
  rw [wrap_add_right, wrap_add_left,
    show ∀ a : Int, a - (p.wordSize : Int) + p.tlaSize = a + (p.tlaSize - p.wordSize) from
      fun a => by ring, wrap_add_left]
  congr 1; ring

theorem NATIVE_THREAD_LOCALS_FROM_TLBLOCK_eq (p : Platform) (b : Nat) :
    NATIVE_THREAD_LOCALS_FROM_TLBLOCK p b =
      wrap p ((b : Int) + p.pageSize - p.wordSize + intWrap (p.tlaSize * 3)) := by
  unfold NATIVE_THREAD_LOCALS_FROM_TLBLOCK
  rw [wrap_add_right, wrap_add_left,
    show ∀ a : Int, a - (p.wordSize : Int) + intWrap (p.tlaSize * 3)
        = a + (intWrap (p.tlaSize * 3) - p.wordSize) from
      fun a => by ring, wrap_add_left]
  congr 1; ring

theorem intWrap_tlaSize_mul (p : Platform) (h0 : 0 ≤ p.tlaSize)
    (h1 : p.tlaSize ≤ INT_MAX / 3) : intWrap (p.tlaSize * 3) = 3 * p.tlaSize := by
  simp only [INT_MAX] at h1
  rw [intWrap_of_range] <;> omega

/-- Exact values of the two macros and of the starts of the three copies when
nothing wraps. -/
theorem layout_exact (p : Platform) (b : Nat)
    (hS0 : 0 ≤ p.tlaSize) (hS1 : p.tlaSize ≤ INT_MAX / 3)
    (hW : (p.wordSize : Int) ≤ b + p.pageSize)
    (hfit : (b : Int) + p.pageSize - p.wordSize + 3 * p.tlaSize < p.modulus) :
    ((triggeredRegion p b).start : Int) = b + p.pageSize - p.wordSize ∧
    (ETLA_FROM_TLBLOCK p b : Int) = b + p.pageSize - p.wordSize + p.tlaSize ∧
    ((disabledRegion p b).start : Int) = b + p.pageSize - p.wordSize + 2 * p.tlaSize ∧
    (NATIVE_THREAD_LOCALS_FROM_TLBLOCK p b : Int)
      = b + p.pageSize - p.wordSize + 3 * p.tlaSize := by
  have hE : (ETLA_FROM_TLBLOCK p b : Int) = b + p.pageSize - p.wordSize + p.tlaSize := by
    rw [ETLA_FROM_TLBLOCK_eq]; apply wrap_of_range <;> omega
  have hN : (NATIVE_THREAD_LOCALS_FROM_TLBLOCK p b : Int)
      = b + p.pageSize - p.wordSize + 3 * p.tlaSize := by
    rw [NATIVE_THREAD_LOCALS_FROM_TLBLOCK_eq, intWrap_tlaSize_mul p hS0 hS1]
    apply wrap_of_range <;> omega
  refine ⟨?_, hE, ?_, hN⟩
  · simp only [triggeredRegion]; rw [hE, wrap_of_range] <;> omega
  · simp only [disabledRegion]; rw [hE, wrap_of_range] <;> omega

/-! ## The accessors address the same word -/

/-- The integer arithmetic of `tla_addressOf` and the pointer arithmetic of
`tla_load` and `tla_store` reach the same address. -/
theorem tla_addressOf_eq_slotPointer (p : Platform) (tla : Nat) (name : Int) :
    tla_addressOf p tla name = slotPointer p tla name := by
  unfold tla_addressOf slotPointer
  rw [wrap_mul_left, wrap_add_left, wrap_add_right]

theorem slotPointer_ne_of_near (p : Platform) (tla : Nat) (i j : Int)
    (hW : 0 < p.wordSize) (hij : j ≠ i)
    (hnear : |j - i| * (p.wordSize : Int) < p.modulus) :
    slotPointer p tla j ≠ slotPointer p tla i := by
  intro h
  have hc : (slotPointer p tla j : Int) = slotPointer p tla i := by rw [h]
  unfold slotPointer at hc
  rw [wrap_cast, wrap_cast] at hc
  have hdvd : (p.modulus : Int) ∣ (j - i) * (p.wordSize : Int) := by
    have h2 := (Int.emod_eq_emod_iff_emod_sub_eq_zero).mp hc
    have h3 := Int.dvd_of_emod_eq_zero h2
    have e : (tla : Int) + j * p.wordSize - (tla + i * p.wordSize)
        = (j - i) * (p.wordSize : Int) := by ring
    rwa [e] at h3
  have habs : |(j - i) * (p.wordSize : Int)| < p.modulus := by
    rw [abs_mul, abs_of_nonneg (Int.ofNat_nonneg p.wordSize)]; exact hnear
  have hz := Int.eq_zero_of_abs_lt_dvd hdvd habs
  have hW0 : (p.wordSize : Int) ≠ 0 := by omega
  rcases mul_eq_zero.mp hz with h0 | h0
  · exact hij (by omega)
  · exact hW0 h0

theorem slotCount_mul (p : Platform) (hdiv : (p.wordSize : Int) ∣ p.tlaSize) :
    slotCount p * (p.wordSize : Int) = p.tlaSize :=
  Int.ediv_mul_cancel hdiv

theorem slotPointer_past_end (p : Platform) (tla : Nat) (j : Int)
    (hdiv : (p.wordSize : Int) ∣ p.tlaSize) :
    slotPointer p tla (slotCount p + j)
      = slotPointer p (wrap p ((tla : Int) + p.tlaSize)) j := by
  unfold slotPointer
  rw [wrap_add_left, add_mul, slotCount_mul p hdiv]
  congr 1; ring

/-! ## The copies of a block placed by the layout macros -/

/-- Exact starts of the three copies when the copies do not wrap around the
address space. -/
theorem copies_exact (p : Platform) (b : Nat) (hS0 : 0 ≤ p.tlaSize)
    (hW : (p.wordSize : Int) ≤ b + p.pageSize)
    (hfit : (b : Int) + p.pageSize - p.wordSize + 2 * p.tlaSize < p.modulus) :
    ((layoutBlock p b).ttla : Int) = b + p.pageSize - p.wordSize ∧
    ((layoutBlock p b).etla : Int) = b + p.pageSize - p.wordSize + p.tlaSize ∧
    ((layoutBlock p b).dtla : Int) = b + p.pageSize - p.wordSize + 2 * p.tlaSize := by
  have hE : (ETLA_FROM_TLBLOCK p b : Int) = b + p.pageSize - p.wordSize + p.tlaSize := by
    rw [ETLA_FROM_TLBLOCK_eq]; apply wrap_of_range <;> omega
  simp only [layoutBlock, triggeredRegion, disabledRegion]
  refine ⟨?_, hE, ?_⟩
  · rw [hE, wrap_of_range] <;> omega
  · rw [hE, wrap_of_range] <;> omega

/-- Exact address of an in-range slot of a copy that ends inside the address
space. -/
theorem tla_addressOf_inside (p : Platform) (tla : Nat) (name : Int)
    (hW : 0 < p.wordSize) (hin : slotInside p name)
    (hfit : (tla : Int) + p.tlaSize ≤ p.modulus) :
    (tla_addressOf p tla name : Int) = tla + name * (p.wordSize : Int) := by
  rw [tla_addressOf_eq_slotPointer]
  exact slotPointer_inside p tla name hW hin hfit

/-! ## Stores to slots that are not self pointers -/

/-- For a slot that is no self pointer the three assignments of `tla_store3` hit
the slot of the enabled, the disabled and the triggered copy, whichever copy the
macro is given. -/
theorem tla_store3_plain {p : Platform} {m : Mem} {blk : Block}
    (hwf : WellFormed p m blk) {tla : Nat} (htla : blk.hasCopy tla)
    {i : Int} (hi : slotInside p i) (hns : notSelfPointer i) (v : Int) :
    tla_store3 p m tla i v =
      writeWord p (writeWord p (writeWord p m (slotPointer p blk.etla i) v)
        (slotPointer p blk.dtla i) v) (slotPointer p blk.ttla i) v :=
  tla_store3_unfold hwf htla hi v (fun h => absurd h hns.2.1) (fun h => absurd h hns.2.2)

/-- Words other than slot `i` of the three copies keep their value. -/
theorem tla_store3_elsewhere {p : Platform} {m : Mem} {blk : Block}
    (hwf : WellFormed p m blk) {tla : Nat} (htla : blk.hasCopy tla)
    {i : Int} (hi : slotInside p i) (hns : notSelfPointer i) (v : Int) (a : Nat)
    (hE : a ≠ slotPointer p blk.etla i) (hD : a ≠ slotPointer p blk.dtla i)
    (hT : a ≠ slotPointer p blk.ttla i) :
    tla_store3 p m tla i v a = m a := by
  rw [tla_store3_plain hwf htla hi hns v]
  unfold writeWord
  rw [if_neg hT, if_neg hD, if_neg hE]

/-- Every in-range slot `j ≠ i` of every copy keeps its value. -/
theorem tla_store3_other_slot {p : Platform} {m : Mem} {blk : Block}
    (hwf : WellFormed p m blk) {tla : Nat} (htla : blk.hasCopy tla)
    {i : Int} (hi : slotInside p i) (hns : notSelfPointer i) (v : Int)
    {x : Nat} (hx : blk.hasCopy x) {j : Int} (hj : slotInside p j) (hji : j ≠ i) :
    tla_load p (tla_store3 p m tla i v) x j = tla_load p m x j := by
  unfold tla_load
  apply tla_store3_elsewhere hwf htla hi hns v
  · exact fun h => hji (hwf.slotPointer_eq hx (Or.inl rfl) hj hi h).2
  · exact fun h => hji (hwf.slotPointer_eq hx (Or.inr (Or.inl rfl)) hj hi h).2
  · exact fun h => hji (hwf.slotPointer_eq hx (Or.inr (Or.inr rfl)) hj hi h).2

/-- An in-range slot of a copy lies in the bytes of that copy. -/
theorem slotPointer_mem_tlaRegion (p : Platform) (x : Nat) (i : Int)
    (hW : 0 < p.wordSize) (hi : slotInside p i)
    (hfit : (x : Int) + p.tlaSize ≤ p.modulus) :
    (tlaRegion p x).contains (slotPointer p x i) := by
  have e := slotPointer_inside p x i hW hi hfit
  obtain ⟨h0, h1⟩ := hi
  have hm : (i + 1) * (p.wordSize : Int) = i * (p.wordSize : Int) + p.wordSize := by ring
  have hn : 0 ≤ i * (p.wordSize : Int) := mul_nonneg h0 (Int.ofNat_nonneg _)
  simp only [Region.contains, tlaRegion]
  omega

/-- The self pointers of every copy survive the store. -/
theorem tla_store3_selfPointers {p : Platform} {m : Mem} {blk : Block}
    (hwf : WellFormed p m blk) {tla : Nat} (htla : blk.hasCopy tla)
    {i : Int} (hi : slotInside p i) (hns : notSelfPointer i) (v : Int)
    {x : Nat} (hx : blk.hasCopy x) :
    selfPointersAt p (tla_store3 p m tla i v) blk x := by
  obtain ⟨sE, sD, sT⟩ := hwf.selfPointers hx
  have hS := hwf.layout.2.1
  obtain ⟨n1, n2, n3⟩ := hns
  refine ⟨?_, ?_, ?_⟩
  · rw [tla_store3_other_slot hwf htla hi ⟨n1, n2, n3⟩ v hx
      (ThreadLocal.ETLA.slotInside hS) (Ne.symm n1)]
    exact sE
  · rw [tla_store3_other_slot hwf htla hi ⟨n1, n2, n3⟩ v hx
      (ThreadLocal.DTLA.slotInside hS) (Ne.symm n2)]
    exact sD
  · rw [tla_store3_other_slot hwf htla hi ⟨n1, n2, n3⟩ v hx
      (ThreadLocal.TTLA.slotInside hS) (Ne.symm n3)]
    exact sT

/-- The block is still well-formed after the store. -/
theorem tla_store3_wellFormed {p : Platform} {m : Mem} {blk : Block}
    (hwf : WellFormed p m blk) {tla : Nat} (htla : blk.hasCopy tla)
    {i : Int} (hi : slotInside p i) (hns : notSelfPointer i) (v : Int) :
    WellFormed p (tla_store3 p m tla i v) blk := by
  have h := hwf
  obtain ⟨hW, hS, hE, hD, hT, dED, dET, dDT, -, -, -⟩ := h
  exact ⟨hW, hS, hE, hD, hT, dED, dET, dDT,
    tla_store3_selfPointers hwf htla hi hns v (Or.inl rfl),
    tla_store3_selfPointers hwf htla hi hns v (Or.inr (Or.inl rfl)),
    tla_store3_selfPointers hwf htla hi hns v (Or.inr (Or.inr rfl))⟩

/-- Any sequence of plain `tla_store3` calls keeps the block well-formed. -/
theorem tla_store3_calls_wellFormed {p : Platform} {blk : Block}
    (calls : List Store3Call) :
    ∀ m : Mem, WellFormed p m blk → (∀ c ∈ calls, c.plain p blk) →
      WellFormed p (tla_store3_calls p m calls) blk := by
  induction calls with
  | nil => intro m hwf _; exact hwf
  | cons c rest ih =>
    intro m hwf hall
    obtain ⟨hc, hi, hns⟩ := hall c (List.mem_cons_self c rest)
    exact ih _ (tla_store3_wellFormed hwf hc hi hns c.value)
      (fun d hd => hall d (List.mem_cons_of_mem c hd))

/-! ## Claims -/

/-- Round trip of `tla_store3` away from the aliasing cases: on a well-formed
block, for every copy `tla`, every declared slot `n` and every word value `v`,
excluding the three cases in which the macro overwrites a self pointer of `tla`
that it reads afterwards (`tla` enabled with `n = DTLA`, and `tla` enabled or
disabled with `n = TTLA`), after `tla_store3(tla, n, v)` the loads of slot `n`
from the enabled, disabled and triggered copies all return `v`. -/
theorem tla_store3_load_all (p : Platform) (m : Mem) (blk : Block)
    (hwf : WellFormed p m blk) (tla : Nat) (htla : blk.hasCopy tla)
    (n : ThreadLocal) (v : Nat) (hv : v < p.modulus)
    (hD : n = ThreadLocal.DTLA → tla ≠ blk.etla)
    (hT : n = ThreadLocal.TTLA → tla = blk.ttla) :
    tla_load p (tla_store3 p m tla n.index v) blk.etla n.index = v ∧
    tla_load p (tla_store3 p m tla n.index v) blk.dtla n.index = v ∧
    tla_load p (tla_store3 p m tla n.index v) blk.ttla n.index = v := by
  have hi : slotInside p n.index := n.slotInside hwf.layout.2.1
  have hD2 : n.index = ThreadLocal.DTLA.index → tla ≠ blk.etla := by
    intro h; apply hD; cases n <;> first | rfl | (exact absurd h (by decide))
  have hT2 : n.index = ThreadLocal.TTLA.index → tla = blk.ttla := by
    intro h; apply hT; cases n <;> first | rfl | (exact absurd h (by decide))
  rw [tla_store3_unfold hwf htla hi v hD2 hT2]
  have hw := wrap_natCast_of_lt p hv
  unfold tla_load writeWord
  refine ⟨?_, ?_, ?_⟩ <;> simp only [hw] <;> split_ifs <;> rfl

/-- C1 (the code at the failing input): the comment of `tla_store3` says the
value is set in all three thread local spaces, and the round trip is claimed for
every slot index. On the well-formed block `sampleBlock`, with `tla` the enabled
copy, `tla_store3(tla, DTLA, 0)` overwrites the `DTLA` slot of `tla` with its
first assignment and re-reads it for the second: the `DTLA` slot of the disabled
copy keeps its old value `12664`, not `0`. With the value `1000` the second
assignment lands at address `1000 + 2 * 8`, outside the block, and the disabled
copy is again left unchanged. -/
theorem tla_store3_load_all_fails :
    WellFormed sample64 sampleMem sampleBlock ∧
    sampleBlock.hasCopy sampleBlock.etla ∧
    (0 : Nat) < sample64.modulus ∧
    tla_load sample64
      (tla_store3 sample64 sampleMem sampleBlock.etla ThreadLocal.DTLA.index (0 : Nat))
      sampleBlock.dtla ThreadLocal.DTLA.index = 12664 ∧
    ¬ (tla_load sample64
      (tla_store3 sample64 sampleMem sampleBlock.etla ThreadLocal.DTLA.index (0 : Nat))
      sampleBlock.dtla ThreadLocal.DTLA.index = 0) ∧
    tla_load sample64
      (tla_store3 sample64 sampleMem sampleBlock.etla ThreadLocal.DTLA.index (1000 : Nat))
      sampleBlock.dtla ThreadLocal.DTLA.index = 12664 ∧
    sampleMem 1016 = 0 ∧
    tla_store3 sample64 sampleMem sampleBlock.etla ThreadLocal.DTLA.index (1000 : Nat) 1016
      = 1000 := by
  decide

/-- An instance of the round trip away from the aliasing cases: `sampleBlock`,
`tla` the disabled copy, slot `DTLA`, value `7`. -/
theorem tla_store3_load_all_witness :
    WellFormed sample64 sampleMem sampleBlock ∧
    tla_load sample64
      (tla_store3 sample64 sampleMem sampleBlock.dtla ThreadLocal.DTLA.index (7 : Nat))
      sampleBlock.etla ThreadLocal.DTLA.index = 7 ∧
    tla_load sample64
      (tla_store3 sample64 sampleMem sampleBlock.dtla ThreadLocal.DTLA.index (7 : Nat))
      sampleBlock.dtla ThreadLocal.DTLA.index = 7 ∧
    tla_load sample64
      (tla_store3 sample64 sampleMem sampleBlock.dtla ThreadLocal.DTLA.index (7 : Nat))
      sampleBlock.ttla ThreadLocal.DTLA.index = 7 :=
  ⟨by decide,
   tla_store3_load_all sample64 sampleMem sampleBlock (by decide) sampleBlock.dtla
     (by decide) ThreadLocal.DTLA 7 (by decide) (by decide) (by decide)⟩

/-- C2 (as amended): the three TLA regions occupy the `3 * tlaSize()` bytes that
start one word before the first page boundary after the block base. For every
block base `b`, page size `P` and TLA size `S` with `0 ≤ S ≤ INT_MAX / 3` and no
address wrap-around, the triggered copy starts at `b + P - sizeof(Address)`,
`ETLA_FROM_TLBLOCK(b) = b + P - sizeof(Address) + S` and
`NATIVE_THREAD_LOCALS_FROM_TLBLOCK(b) = b + P - sizeof(Address) + 3 * S`. -/
theorem tla_regions_start_one_word_before_page (p : Platform) (b : Nat)
    (hS0 : 0 ≤ p.tlaSize) (hS1 : p.tlaSize ≤ INT_MAX / 3)
    (hW : (p.wordSize : Int) ≤ b + p.pageSize)
    (hfit : (b : Int) + p.pageSize - p.wordSize + 3 * p.tlaSize < p.modulus) :
    ((triggeredRegion p b).start : Int) = b + p.pageSize - p.wordSize ∧
    (ETLA_FROM_TLBLOCK p b : Int) = b + p.pageSize - p.wordSize + p.tlaSize ∧
    (NATIVE_THREAD_LOCALS_FROM_TLBLOCK p b : Int)
      = b + p.pageSize - p.wordSize + 3 * p.tlaSize ∧
    (NATIVE_THREAD_LOCALS_FROM_TLBLOCK p b : Int)
      = (triggeredRegion p b).start + 3 * p.tlaSize := by
  obtain ⟨hT, hE, -, hN⟩ := layout_exact p b hS0 hS1 hW hfit
  exact ⟨hT, hE, hN, by rw [hT, hN]⟩

/-- C2 (counterexample): on `sample64` (8-byte words, 4096-byte pages, 192-byte
TLAs) with the page-aligned base `8192`, the triggered copy starts at `12280`,
not `12288`; `ETLA_FROM_TLBLOCK` is `12472`, not `8192 + 4096 + 192`; and
`NATIVE_THREAD_LOCALS_FROM_TLBLOCK` is `12856`, not `8192 + 4096 + 3 * 192`. -/
theorem tla_regions_not_at_page_boundary :
    sample64.pageSize ∣ 8192 ∧
    (triggeredRegion sample64 8192).start = 12280 ∧
    (triggeredRegion sample64 8192).start ≠ 8192 + sample64.pageSize ∧
    ETLA_FROM_TLBLOCK sample64 8192 = 12472 ∧
    (ETLA_FROM_TLBLOCK sample64 8192 : Int) ≠ 8192 + sample64.pageSize + sample64.tlaSize ∧
    NATIVE_THREAD_LOCALS_FROM_TLBLOCK sample64 8192 = 12856 ∧
    (NATIVE_THREAD_LOCALS_FROM_TLBLOCK sample64 8192 : Int)
      ≠ 8192 + sample64.pageSize + 3 * sample64.tlaSize := by
  decide

/-- C2 (witness): the amended layout equations at `sample64`, base `8192`. -/
theorem tla_regions_start_one_word_before_page_witness :
    ((triggeredRegion sample64 8192).start : Int) = 8192 + 4096 - 8 ∧
    (ETLA_FROM_TLBLOCK sample64 8192 : Int) = 8192 + 4096 - 8 + 192 ∧
    (NATIVE_THREAD_LOCALS_FROM_TLBLOCK sample64 8192 : Int) = 8192 + 4096 - 8 + 3 * 192 ∧
    (NATIVE_THREAD_LOCALS_FROM_TLBLOCK sample64 8192 : Int)
      = (triggeredRegion sample64 8192).start + 3 * 192 :=
  tla_regions_start_one_word_before_page sample64 8192 (by decide) (by decide)
    (by decide) (by decide)

/-- C3 (as amended): for every base `b`, page size `P ≥ sizeof(Address) > 0` and TLA
size `S` with `sizeof(Address) ≤ S ≤ INT_MAX / 3` (no address wrap-around), the
triggered, enabled and disabled copies and the native descriptor are pairwise
disjoint, the unmapped page is disjoint from the enabled copy, the disabled copy
and the descriptor, and the unmapped page shares with the triggered copy exactly
the bytes of its last word `[b + P - sizeof(Address), b + P)`. -/
theorem block_regions_disjoint (p : Platform) (b : Nat)
    (hW : 0 < p.wordSize) (hP : p.wordSize ≤ p.pageSize) (hS : (p.wordSize : Int) ≤ p.tlaSize)
    (hS1 : p.tlaSize ≤ INT_MAX / 3)
    (hfit : (b : Int) + p.pageSize - p.wordSize + 3 * p.tlaSize
      + sizeofNativeThreadLocalsStruct p ≤ p.modulus) :
    (triggeredRegion p b).disjoint (enabledRegion p b) ∧
    (triggeredRegion p b).disjoint (disabledRegion p b) ∧
    (triggeredRegion p b).disjoint (nativeRegion p b) ∧
    (enabledRegion p b).disjoint (disabledRegion p b) ∧
    (enabledRegion p b).disjoint (nativeRegion p b) ∧
    (disabledRegion p b).disjoint (nativeRegion p b) ∧
    (unmappedPage p b).disjoint (enabledRegion p b) ∧
    (unmappedPage p b).disjoint (disabledRegion p b) ∧
    (unmappedPage p b).disjoint (nativeRegion p b) ∧
    (∀ x : Nat, ((unmappedPage p b).contains x ∧ (triggeredRegion p b).contains x) ↔
      (b + p.pageSize - p.wordSize ≤ x ∧ x < b + p.pageSize)) := by
  have hsz : sizeofNativeThreadLocalsStruct p = 10 * p.wordSize := rfl
  obtain ⟨hT, hE, hD, hN⟩ := layout_exact p b (by omega) hS1 (by omega) (by omega)
  simp only [Region.disjoint, Region.contains, enabledRegion, nativeRegion, unmappedPage,
    hsz]
  simp only [disabledRegion] at hD
  simp only [triggeredRegion] at hT
  simp only [disabledRegion, triggeredRegion]
  refine ⟨?_, ?_, ?_, ?_, ?_, ?_, ?_, ?_, ?_, ?_⟩ <;> omega

/-- C3 (counterexample): on `sample64` with the page-aligned base `8192` the
unmapped page `[8192, 12288)` and the triggered copy `[12280, 12472)` are not
disjoint, both contain the byte `12280`; and on `oversized64`, where
`tlaSize() * 3` overflows `int`, the native descriptor lies inside the triggered
copy. -/
theorem block_regions_overlap :
    (sample64.pageSize ∣ 8192 ∧ sample64.wordSize ≤ sample64.pageSize ∧
      0 < sample64.tlaSize ∧
      ¬ (unmappedPage sample64 8192).disjoint (triggeredRegion sample64 8192) ∧
      (unmappedPage sample64 8192).contains 12280 ∧
      (triggeredRegion sample64 8192).contains 12280) ∧
    (oversized64.pageSize ∣ 8192 ∧ oversized64.wordSize ≤ oversized64.pageSize ∧
      0 < oversized64.tlaSize ∧
      ¬ (triggeredRegion oversized64 8192).disjoint (nativeRegion oversized64 8192) ∧
      (triggeredRegion oversized64 8192).contains 12282 ∧
      (nativeRegion oversized64 8192).contains 12282) := by
  decide

/-- C3 (witness): the amended disjointness at `sample64`, base `8192`. -/
theorem block_regions_disjoint_witness :
    sample64.wordSize ≤ sample64.pageSize ∧
    (triggeredRegion sample64 8192).disjoint (enabledRegion sample64 8192) ∧
    (unmappedPage sample64 8192).disjoint (enabledRegion sample64 8192) ∧
    (disabledRegion sample64 8192).disjoint (nativeRegion sample64 8192) :=
  have h := block_regions_disjoint sample64 8192 (by decide) (by decide) (by decide)
    (by decide) (by decide)
  ⟨by decide, h.1, h.2.2.2.2.2.2.1, h.2.2.2.2.2.1⟩

/-- C4: for every block base `b`, page size `P > sizeof(Address)` and TLA size `S`
with `0 < S ≤ INT_MAX / 3` such that `b + P + 3 * S` does not exceed the maximum
address, with `E = ETLA_FROM_TLBLOCK(b)` and
`N = NATIVE_THREAD_LOCALS_FROM_TLBLOCK(b)`:
`b < E - S < E < E + S < N`; the machine-word values of `E - S` and `E + S`
(the starts of the triggered and the disabled copy) equal the exact ones. -/
theorem region_starts_increasing (p : Platform) (b : Nat)
    (hP : p.wordSize < p.pageSize) (hS0 : 0 < p.tlaSize)
    (hS1 : p.tlaSize ≤ INT_MAX / 3)
    (hfit : (b : Int) + p.pageSize + 3 * p.tlaSize ≤ (p.modulus : Int) - 1) :
    (b : Int) < (ETLA_FROM_TLBLOCK p b : Int) - p.tlaSize ∧
    (ETLA_FROM_TLBLOCK p b : Int) - p.tlaSize < ETLA_FROM_TLBLOCK p b ∧
    (ETLA_FROM_TLBLOCK p b : Int) < (ETLA_FROM_TLBLOCK p b : Int) + p.tlaSize ∧
    (ETLA_FROM_TLBLOCK p b : Int) + p.tlaSize < NATIVE_THREAD_LOCALS_FROM_TLBLOCK p b ∧
    ((triggeredRegion p b).start : Int) = (ETLA_FROM_TLBLOCK p b : Int) - p.tlaSize ∧
    ((disabledRegion p b).start : Int) = (ETLA_FROM_TLBLOCK p b : Int) + p.tlaSize := by
  obtain ⟨hT, hE, hD, hN⟩ := layout_exact p b (by omega) hS1 (by omega) (by omega)
  refine ⟨?_, ?_, ?_, ?_, ?_, ?_⟩ <;> omega

/-- C4 (witness): the ordering at `sample64`, base `8192`. -/
theorem region_starts_increasing_witness :
    sample64.wordSize < sample64.pageSize ∧
    (8192 : Int) < (ETLA_FROM_TLBLOCK sample64 8192 : Int) - sample64.tlaSize ∧
    (ETLA_FROM_TLBLOCK sample64 8192 : Int) + sample64.tlaSize
      < NATIVE_THREAD_LOCALS_FROM_TLBLOCK sample64 8192 :=
  have h := region_starts_increasing sample64 8192 (by decide) (by decide) (by decide)
    (by decide)
  ⟨by decide, h.1, h.2.2.2.1⟩

/-- C5: for every block base `b`, page size `P` and TLA size `S` with
`0 ≤ S ≤ INT_MAX / 3`, in `Address` arithmetic
`NATIVE_THREAD_LOCALS_FROM_TLBLOCK(b) = ETLA_FROM_TLBLOCK(b) + 2 * S`, the
descriptor starts where the disabled copy ends, and
`ETLA_FROM_TLBLOCK(b) = NATIVE_THREAD_LOCALS_FROM_TLBLOCK(b) - 2 * S`; neither
equation mentions the block base or the page size. -/
theorem native_from_etla (p : Platform) (b : Nat)
    (hS0 : 0 ≤ p.tlaSize) (hS1 : p.tlaSize ≤ INT_MAX / 3) :
    NATIVE_THREAD_LOCALS_FROM_TLBLOCK p b
      = wrap p ((ETLA_FROM_TLBLOCK p b : Int) + 2 * p.tlaSize) ∧
    NATIVE_THREAD_LOCALS_FROM_TLBLOCK p b
      = wrap p (((disabledRegion p b).start : Int) + p.tlaSize) ∧
    ETLA_FROM_TLBLOCK p b
      = wrap p ((NATIVE_THREAD_LOCALS_FROM_TLBLOCK p b : Int) - 2 * p.tlaSize) := by
  rw [NATIVE_THREAD_LOCALS_FROM_TLBLOCK_eq, intWrap_tlaSize_mul p hS0 hS1]
  simp only [disabledRegion]
  rw [ETLA_FROM_TLBLOCK_eq]
  refine ⟨?_, ?_, ?_⟩
  · rw [wrap_add_left]; congr 1; ring
  · rw [wrap_add_left, add_assoc, wrap_add_left]; congr 1; ring
  · rw [wrap_sub_left]; congr 1; ring

/-- C5 (witness): the two equations at `sample64`, base `8192`. -/
theorem native_from_etla_witness :
    NATIVE_THREAD_LOCALS_FROM_TLBLOCK sample64 8192
      = wrap sample64 ((ETLA_FROM_TLBLOCK sample64 8192 : Int) + 2 * sample64.tlaSize) ∧
    ETLA_FROM_TLBLOCK sample64 8192
      = wrap sample64
          ((NATIVE_THREAD_LOCALS_FROM_TLBLOCK sample64 8192 : Int) - 2 * sample64.tlaSize) :=
  have h := native_from_etla sample64 8192 (by decide) (by decide)
  ⟨h.1, h.2.2⟩

/-- C6: for every memory state, TLA address `tla`, slot index `i` and word value
`v`, `tla_load(tla, i)` evaluated after `tla_store(tla, i, v)` returns `v`. -/
theorem tla_load_after_store (p : Platform) (m : Mem) (tla : Nat) (i : Int) (v : Nat)
    (hv : v < p.modulus) :
    tla_load p (tla_store p m tla i v) tla i = v := by
  unfold tla_load tla_store writeWord
  rw [if_pos rfl]
  exact wrap_natCast_of_lt p hv

/-- C6 (witness): storing the largest 64-bit word in slot `ID` of the copy at
`12472` and loading it back. -/
theorem tla_load_after_store_witness :
    18446744073709551615 < sample64.modulus ∧
    tla_load sample64
      (tla_store sample64 sampleMem 12472 ThreadLocal.ID.index (18446744073709551615 : Nat))
      12472 ThreadLocal.ID.index = 18446744073709551615 :=
  ⟨by decide, tla_load_after_store sample64 sampleMem 12472 ThreadLocal.ID.index
    18446744073709551615 (by decide)⟩

/-- C7 (as amended): after `tla_store(tla, i, v)` every word of memory other than
the one at `tla_addressOf(tla, i)` is unchanged; `tla_load(tla, j)` is unchanged
for every index `j ≠ i` (the two slots less than the address space apart, as any
two slots reached without address wrap-around are); and in a block whose three
copies are contiguous, for `0 ≤ i` with `(i + 1) * sizeof(Address) ≤ tlaSize()`,
storing to one copy leaves every in-range slot of the two other copies
unchanged. -/
theorem tla_store_frame (p : Platform) (m : Mem) (tla : Nat) (i : Int) (v : Int) :
    (∀ a : Nat, a ≠ tla_addressOf p tla i → tla_store p m tla i v a = m a) ∧
    (∀ j : Int, j ≠ i → 0 < p.wordSize → |j - i| * (p.wordSize : Int) < p.modulus →
      tla_load p (tla_store p m tla i v) tla j = tla_load p m tla j) ∧
    (∀ blk : Block, 0 < p.wordSize → slotInside p i →
      (blk.etla : Int) = blk.ttla + p.tlaSize → (blk.dtla : Int) = blk.etla + p.tlaSize →
      (blk.dtla : Int) + p.tlaSize ≤ p.modulus →
      blk.hasCopy tla →
      ∀ other : Nat, blk.hasCopy other → other ≠ tla →
      ∀ j : Int, slotInside p j →
        tla_load p (tla_store p m tla i v) other j = tla_load p m other j) := by
  refine ⟨?_, ?_, ?_⟩
  · intro a ha
    rw [tla_addressOf_eq_slotPointer] at ha
    unfold tla_store writeWord
    rw [if_neg ha]
  · intro j hji hW hnear
    unfold tla_load tla_store writeWord
    rw [if_neg (slotPointer_ne_of_near p tla i j hW hji hnear)]
  · intro blk hW hi hE hD hfit htla other hother hne j hj
    unfold tla_load tla_store writeWord
    have hS : 0 < p.tlaSize := by
      obtain ⟨h0, h1⟩ := hi
      have : (i + 1) * (p.wordSize : Int) = i * (p.wordSize : Int) + p.wordSize := by ring
      have : 0 ≤ i * (p.wordSize : Int) := mul_nonneg h0 (Int.ofNat_nonneg _)
      omega
    have hfo : (other : Int) + p.tlaSize ≤ p.modulus := by
      rcases hother with rfl | rfl | rfl <;> omega
    have hft : (tla : Int) + p.tlaSize ≤ p.modulus := by
      rcases htla with rfl | rfl | rfl <;> omega
    have hap : (other : Int) + p.tlaSize ≤ tla ∨ (tla : Int) + p.tlaSize ≤ other := by
      rcases hother with rfl | rfl | rfl <;> rcases htla with rfl | rfl | rfl <;> omega
    rw [if_neg (slotPointer_ne_of_apart p other tla j i hW hj hi hfo hft hap)]

/-- C7 (counterexample): on `sampleBlock`, whose copies are contiguous, the index
`-1` meets the stated condition `(i + 1) * sizeof(Address) ≤ tlaSize()`, yet
`tla_store(enabled, -1, 77)` changes slot 23 of the triggered copy from `0` to
`77`. -/
theorem tla_store_negative_index_hits_other_copy :
    (sampleBlock.etla : Int) = sampleBlock.ttla + sample64.tlaSize ∧
    (sampleBlock.dtla : Int) = sampleBlock.etla + sample64.tlaSize ∧
    (sampleBlock.dtla : Int) + sample64.tlaSize ≤ sample64.modulus ∧
    ((-1 : Int) + 1) * (sample64.wordSize : Int) ≤ sample64.tlaSize ∧
    sampleBlock.hasCopy sampleBlock.etla ∧
    sampleBlock.hasCopy sampleBlock.ttla ∧
    sampleBlock.ttla ≠ sampleBlock.etla ∧
    slotInside sample64 23 ∧
    tla_load sample64 sampleMem sampleBlock.ttla 23 = 0 ∧
    tla_load sample64 (tla_store sample64 sampleMem sampleBlock.etla (-1) 77)
      sampleBlock.ttla 23 = 77 ∧
    ¬ (tla_load sample64 (tla_store sample64 sampleMem sampleBlock.etla (-1) 77)
        sampleBlock.ttla 23
      = tla_load sample64 sampleMem sampleBlock.ttla 23) := by
  decide

/-- C7 (witness): on `sampleBlock`, storing `5` in slot `ID` of the enabled copy
changes neither another address, nor slot `JNI_ENV` of the enabled copy, nor
slot `ID` of the triggered copy. -/
theorem tla_store_frame_witness :
    (12480 ≠ tla_addressOf sample64 12472 ThreadLocal.ID.index ∧
      tla_store sample64 sampleMem 12472 ThreadLocal.ID.index 5 12480 = sampleMem 12480) ∧
    (ThreadLocal.JNI_ENV.index ≠ ThreadLocal.ID.index ∧
      tla_load sample64 (tla_store sample64 sampleMem 12472 ThreadLocal.ID.index 5)
        12472 ThreadLocal.JNI_ENV.index
        = tla_load sample64 sampleMem 12472 ThreadLocal.JNI_ENV.index) ∧
    (sampleBlock.hasCopy 12280 ∧ 12280 ≠ 12472 ∧
      tla_load sample64 (tla_store sample64 sampleMem 12472 ThreadLocal.ID.index 5)
        12280 ThreadLocal.ID.index
        = tla_load sample64 sampleMem 12280 ThreadLocal.ID.index) :=
  have h := tla_store_frame sample64 sampleMem 12472 ThreadLocal.ID.index 5
  ⟨⟨by decide, h.1 12480 (by decide)⟩,
   ⟨by decide, h.2.1 ThreadLocal.JNI_ENV.index (by decide) (by decide) (by decide)⟩,
   ⟨by decide, by decide,
    h.2.2 sampleBlock (by decide) (by decide) (by decide) (by decide) (by decide)
      (by decide) 12280 (by decide) (by decide) ThreadLocal.ID.index (by decide)⟩⟩

/-- C8: for every TLA address `tla` and slot index `i`, `tla_addressOf(tla, i)` is
`tla + i * sizeof(Address)` (reduced to a word, and exactly that absent
wrap-around, so `tla_addressOf(tla, 0) = tla`); `tla_load(tla, i)` returns the
word stored at that address and `tla_store(tla, i, v)` stores `v` there and
nowhere else; and absent wrap-around `tla_addressOf(tla, i)` is strictly
increasing in `i`, distinct indices being at least `sizeof(Address)` apart. -/
theorem tla_addressOf_names_slot (p : Platform) (tla : Nat) (i : Int) :
    tla_addressOf p tla i = wrap p ((tla : Int) + i * (p.wordSize : Int)) ∧
    (0 ≤ (tla : Int) + i * (p.wordSize : Int) →
      (tla : Int) + i * (p.wordSize : Int) < p.modulus →
      (tla_addressOf p tla i : Int) = (tla : Int) + i * (p.wordSize : Int)) ∧
    (tla < p.modulus → tla_addressOf p tla 0 = tla) ∧
    (∀ m : Mem, tla_load p m tla i = m (tla_addressOf p tla i)) ∧
    (∀ (m : Mem) (v : Int),
      tla_store p m tla i v = writeWord p m (tla_addressOf p tla i) v ∧
      tla_store p m tla i v (tla_addressOf p tla i) = wrap p v) ∧
    (∀ j : Int, 0 < p.wordSize → i < j →
      0 ≤ (tla : Int) + i * (p.wordSize : Int) →
      (tla : Int) + j * (p.wordSize : Int) < p.modulus →
      tla_addressOf p tla i < tla_addressOf p tla j ∧
      tla_addressOf p tla i + p.wordSize ≤ tla_addressOf p tla j) := by
  refine ⟨?_, ?_, ?_, ?_, ?_, ?_⟩
  · rw [tla_addressOf_eq_slotPointer]; rfl
  · intro h0 h1
    rw [tla_addressOf_eq_slotPointer]
    exact wrap_of_range p h0 h1
  · intro h
    rw [tla_addressOf_eq_slotPointer]
    unfold slotPointer
    rw [zero_mul, add_zero]
    exact wrap_natCast_of_lt p h
  · intro m
    rw [tla_addressOf_eq_slotPointer]; rfl
  · intro m v
    rw [tla_addressOf_eq_slotPointer]
    refine ⟨rfl, ?_⟩
    unfold tla_store writeWord
    rw [if_pos rfl]
  · intro j hW hij h0 h1
    have hle : i * (p.wordSize : Int) + p.wordSize ≤ j * (p.wordSize : Int) := by
      have : (i + 1) * (p.wordSize : Int) ≤ j * (p.wordSize : Int) :=
        mul_le_mul_of_nonneg_right (by omega) (Int.ofNat_nonneg _)
      have e : (i + 1) * (p.wordSize : Int) = i * (p.wordSize : Int) + p.wordSize := by ring
      omega
    have ei : (tla_addressOf p tla i : Int) = (tla : Int) + i * (p.wordSize : Int) := by
      rw [tla_addressOf_eq_slotPointer]
      exact wrap_of_range p h0 (by omega)
    have ej : (tla_addressOf p tla j : Int) = (tla : Int) + j * (p.wordSize : Int) := by
      rw [tla_addressOf_eq_slotPointer]
      exact wrap_of_range p (by omega) h1
    omega

/-- C8 (witness): on `sample64`, at the enabled copy `12472`, slot `ID` (index 9)
lies at `12472 + 9 * 8`, slot 0 at `12472`, and slot `JNI_ENV` (index 11) lies
above slot `ID`. -/
theorem tla_addressOf_names_slot_witness :
    (tla_addressOf sample64 12472 ThreadLocal.ID.index : Int) = 12472 + 9 * 8 ∧
    tla_addressOf sample64 12472 0 = 12472 ∧
    (ThreadLocal.ID.index < ThreadLocal.JNI_ENV.index ∧
      tla_addressOf sample64 12472 ThreadLocal.ID.index + sample64.wordSize
        ≤ tla_addressOf sample64 12472 ThreadLocal.JNI_ENV.index) :=
  ⟨(tla_addressOf_names_slot sample64 12472 ThreadLocal.ID.index).2.1
      (by decide) (by decide),
   (tla_addressOf_names_slot sample64 12472 0).2.2.1 (by decide),
   by decide,
   ((tla_addressOf_names_slot sample64 12472 ThreadLocal.ID.index).2.2.2.2.2
      ThreadLocal.JNI_ENV.index (by decide) (by decide) (by decide) (by decide)).2⟩

/-- C9 (as amended): the accessors check no bound. For every TLA address `tla`
and every index, in range or not, `tla_addressOf`, `tla_load` and `tla_store`
address the word at `tla + index * sizeof(Address)`; when `tlaSize()` is a whole
number of words, index `SlotCount + j` of the copy at `tla` is slot `j` of the
copy that starts `tlaSize()` bytes later: the address is the same, the load
returns that slot and the store writes it. -/
theorem tla_access_unchecked (p : Platform) (m : Mem) (tla : Nat) (j : Int) (v : Int)
    (hdiv : (p.wordSize : Int) ∣ p.tlaSize) :
    tla_addressOf p tla (slotCount p + j)
      = tla_addressOf p (wrap p ((tla : Int) + p.tlaSize)) j ∧
    tla_load p m tla (slotCount p + j)
      = tla_load p m (wrap p ((tla : Int) + p.tlaSize)) j ∧
    tla_store p m tla (slotCount p + j) v
      = tla_store p m (wrap p ((tla : Int) + p.tlaSize)) j v := by
  have h := slotPointer_past_end p tla j hdiv
  refine ⟨?_, ?_, ?_⟩
  · rw [tla_addressOf_eq_slotPointer, tla_addressOf_eq_slotPointer, h]
  · unfold tla_load; rw [h]
  · unfold tla_store; rw [h]

/-- C9 (counterexample): on `sample64` (`SlotCount = 24`) with the triggered copy
at `12280` and the enabled copy at `12472`, index 24 is out of range, yet
`tla_addressOf(triggered, 24)` is the address of the enabled copy,
`tla_load(triggered, 24)` returns the value 42 held by slot 0 of the enabled copy,
and `tla_store(triggered, 24, 7)` overwrites that slot. -/
theorem tla_access_out_of_range_succeeds :
    slotCount sample64 = 24 ∧
    ¬ slotInside sample64 24 ∧
    tla_addressOf sample64 sampleBlock.ttla 24 = sampleBlock.etla ∧
    tla_load sample64 (tla_store sample64 sampleMem sampleBlock.etla 0 42)
      sampleBlock.etla 0 = 42 ∧
    tla_load sample64 (tla_store sample64 sampleMem sampleBlock.etla 0 42)
      sampleBlock.ttla 24 = 42 ∧
    tla_load sample64 sampleMem sampleBlock.etla 0 = 0 ∧
    tla_load sample64 (tla_store sample64 sampleMem sampleBlock.ttla 24 7)
      sampleBlock.etla 0 = 7 := by
  decide

/-- C9 (witness): the amended statement at `sample64`, triggered copy `12280`,
index `SlotCount + 1`. -/
theorem tla_access_unchecked_witness :
    (sample64.wordSize : Int) ∣ sample64.tlaSize ∧
    tla_load sample64 sampleMem 12280 (slotCount sample64 + 1)
      = tla_load sample64 sampleMem (wrap sample64 ((12280 : Nat) + sample64.tlaSize)) 1 :=
  ⟨by decide, (tla_access_unchecked sample64 sampleMem 12280 1 0 (by decide)).2.1⟩

/-- C10: the `ThreadLocal` enumeration has exactly the 16 constants of
`FOR_ALL_THREAD_LOCALS`, with the indices 0, 1, 2, 3, 4, 5, 6, 9, 11, 12, 15, 16,
17, 18, 22, 23 in declaration order; the name-to-index map is injective and
strictly increasing in declaration order. -/
theorem threadLocal_indices :
    FOR_ALL_THREAD_LOCALS.map ThreadLocal.index
      = [0, 1, 2, 3, 4, 5, 6, 9, 11, 12, 15, 16, 17, 18, 22, 23] ∧
    FOR_ALL_THREAD_LOCALS.length = 16 ∧
    FOR_ALL_THREAD_LOCALS.Nodup ∧
    (∀ n : ThreadLocal, n ∈ FOR_ALL_THREAD_LOCALS) ∧
    (ThreadLocal.SAFEPOINT_LATCH.index = 0 ∧ ThreadLocal.ETLA.index = 1 ∧
      ThreadLocal.DTLA.index = 2 ∧ ThreadLocal.TTLA.index = 3 ∧
      ThreadLocal.NATIVE_THREAD_LOCALS.index = 4 ∧ ThreadLocal.FORWARD_LINK.index = 5 ∧
      ThreadLocal.BACKWARD_LINK.index = 6 ∧ ThreadLocal.ID.index = 9 ∧
      ThreadLocal.JNI_ENV.index = 11 ∧ ThreadLocal.LAST_JAVA_FRAME_ANCHOR.index = 12 ∧
      ThreadLocal.TRAP_NUMBER.index = 15 ∧
      ThreadLocal.TRAP_INSTRUCTION_POINTER.index = 16 ∧
      ThreadLocal.TRAP_FAULT_ADDRESS.index = 17 ∧
      ThreadLocal.TRAP_LATCH_REGISTER.index = 18 ∧
      ThreadLocal.STACK_REFERENCE_MAP.index = 22 ∧
      ThreadLocal.STACK_REFERENCE_MAP_SIZE.index = 23) ∧
    Function.Injective ThreadLocal.index ∧
    List.Pairwise (fun a b => a < b) (FOR_ALL_THREAD_LOCALS.map ThreadLocal.index) := by
  refine ⟨by decide, by decide, by decide, ?_, by decide, ?_, by decide⟩
  · intro n; cases n <;> decide
  · intro a b h
    cases a <;> cases b <;> first | rfl | (exact absurd h (by decide))

/-- C11: for every block base `b`, page size `P ≥ sizeof(Address)` and TLA size
`S ≥ 24 * sizeof(Address)` of a block whose copies lie in the address space, with
the triggered copy at `T = ETLA_FROM_TLBLOCK(b) - S`:
`tla_addressOf(T, SAFEPOINT_LATCH) = b + P - sizeof(Address)`, the last word of
the unmapped page `[b, b + P)`; every other declared slot of the triggered copy
and every declared slot of the enabled and the disabled copy has an address
`≥ b + P`. -/
theorem safepoint_latch_in_unmapped_page (p : Platform) (b : Nat)
    (hW : 0 < p.wordSize) (hP : p.wordSize ≤ p.pageSize)
    (hS : 24 * (p.wordSize : Int) ≤ p.tlaSize)
    (hfit : (b : Int) + p.pageSize - p.wordSize + 3 * p.tlaSize ≤ p.modulus) :
    (tla_addressOf p (layoutBlock p b).ttla ThreadLocal.SAFEPOINT_LATCH.index : Int)
      = b + p.pageSize - p.wordSize ∧
    (unmappedPage p b).contains
      (tla_addressOf p (layoutBlock p b).ttla ThreadLocal.SAFEPOINT_LATCH.index) ∧
    tla_addressOf p (layoutBlock p b).ttla ThreadLocal.SAFEPOINT_LATCH.index + p.wordSize
      = b + p.pageSize ∧
    (∀ n : ThreadLocal, n ≠ ThreadLocal.SAFEPOINT_LATCH →
      b + p.pageSize ≤ tla_addressOf p (layoutBlock p b).ttla n.index) ∧
    (∀ n : ThreadLocal, b + p.pageSize ≤ tla_addressOf p (layoutBlock p b).etla n.index) ∧
    (∀ n : ThreadLocal, b + p.pageSize ≤ tla_addressOf p (layoutBlock p b).dtla n.index) := by
  obtain ⟨hT, hE, hD⟩ := copies_exact p b (by omega) (by omega) (by omega)
  have addr : ∀ (x : Nat) (n : ThreadLocal), (x : Int) + p.tlaSize ≤ p.modulus →
      (tla_addressOf p x n.index : Int) = x + n.index * (p.wordSize : Int) ∧
      0 ≤ n.index * (p.wordSize : Int) := by
    intro x n hx
    exact ⟨tla_addressOf_inside p x n.index hW (n.slotInside hS) hx,
      mul_nonneg n.index_range.1 (Int.ofNat_nonneg _)⟩
  have h0 := (addr (layoutBlock p b).ttla ThreadLocal.SAFEPOINT_LATCH (by omega)).1
  have hz : ThreadLocal.SAFEPOINT_LATCH.index * (p.wordSize : Int) = 0 := by
    simp [ThreadLocal.index]
  refine ⟨by omega, ?_, by omega, ?_, ?_, ?_⟩
  · simp only [Region.contains, unmappedPage]; omega
  · intro n hn
    obtain ⟨h1, -⟩ := addr (layoutBlock p b).ttla n (by omega)
    have hidx : 1 ≤ n.index := by
      cases n <;> first | (exact absurd rfl hn) | decide
    have : 1 * (p.wordSize : Int) ≤ n.index * (p.wordSize : Int) :=
      mul_le_mul_of_nonneg_right hidx (Int.ofNat_nonneg _)
    omega
  · intro n
    obtain ⟨h1, h2⟩ := addr (layoutBlock p b).etla n (by omega)
    omega
  · intro n
    obtain ⟨h1, h2⟩ := addr (layoutBlock p b).dtla n (by omega)
    omega

/-- C11 (witness): on `sample64` with base `8192` the safepoint latch of the
triggered copy is the word at `12280`, ending at the page boundary `12288`, and
slot `ETLA` of the triggered copy lies at or above `12288`. -/
theorem safepoint_latch_in_unmapped_page_witness :
    (tla_addressOf sample64 (layoutBlock sample64 8192).ttla
      ThreadLocal.SAFEPOINT_LATCH.index : Int) = 8192 + 4096 - 8 ∧
    (unmappedPage sample64 8192).contains
      (tla_addressOf sample64 (layoutBlock sample64 8192).ttla
        ThreadLocal.SAFEPOINT_LATCH.index) ∧
    8192 + sample64.pageSize
      ≤ tla_addressOf sample64 (layoutBlock sample64 8192).ttla ThreadLocal.ETLA.index :=
  have h := safepoint_latch_in_unmapped_page sample64 8192 (by decide) (by decide)
    (by decide) (by decide)
  ⟨h.1, h.2.1, h.2.2.2.1 ThreadLocal.ETLA (by decide)⟩

/-- C12: on a well-formed block, for every in-range slot index `i` other than
`ETLA`, `DTLA`, `TTLA` and every value `v`, the memory after
`tla_store3(tla, i, v)` is the memory after `tla_store(E, i, v)`;
`tla_store(D, i, v)`; `tla_store(T, i, v)`, for each of the copies `tla = E`,
`tla = D`, `tla = T`; so it does not depend on the copy given. -/
theorem tla_store3_eq_three_stores (p : Platform) (m : Mem) (blk : Block)
    (hwf : WellFormed p m blk) (i : Int) (hi : slotInside p i)
    (hns : notSelfPointer i) (v : Int) :
    (∀ tla : Nat, blk.hasCopy tla →
      tla_store3 p m tla i v
        = tla_store p (tla_store p (tla_store p m blk.etla i v) blk.dtla i v)
            blk.ttla i v) ∧
    tla_store3 p m blk.etla i v = tla_store3 p m blk.dtla i v ∧
    tla_store3 p m blk.dtla i v = tla_store3 p m blk.ttla i v := by
  have key : ∀ tla : Nat, blk.hasCopy tla →
      tla_store3 p m tla i v
        = tla_store p (tla_store p (tla_store p m blk.etla i v) blk.dtla i v)
            blk.ttla i v := by
    intro tla htla
    rw [tla_store3_plain hwf htla hi hns v]
    rfl
  refine ⟨key, ?_, ?_⟩
  · rw [key _ (Or.inl rfl), key _ (Or.inr (Or.inl rfl))]
  · rw [key _ (Or.inr (Or.inl rfl)), key _ (Or.inr (Or.inr rfl))]

/-- C12 (witness): on `sampleBlock`, `tla_store3` of `5` to slot `ID` through the
disabled copy equals the three single stores, and equals `tla_store3` through
the enabled copy. -/
theorem tla_store3_eq_three_stores_witness :
    WellFormed sample64 sampleMem sampleBlock ∧
    notSelfPointer ThreadLocal.ID.index ∧
    tla_store3 sample64 sampleMem sampleBlock.dtla ThreadLocal.ID.index 5
      = tla_store sample64
          (tla_store sample64
            (tla_store sample64 sampleMem sampleBlock.etla ThreadLocal.ID.index 5)
            sampleBlock.dtla ThreadLocal.ID.index 5)
          sampleBlock.ttla ThreadLocal.ID.index 5 ∧
    tla_store3 sample64 sampleMem sampleBlock.etla ThreadLocal.ID.index 5
      = tla_store3 sample64 sampleMem sampleBlock.dtla ThreadLocal.ID.index 5 :=
  have h := tla_store3_eq_three_stores sample64 sampleMem sampleBlock (by decide)
    ThreadLocal.ID.index (by decide) (by decide) 5
  ⟨by decide, by decide, h.1 sampleBlock.dtla (by decide), h.2.1⟩

/-- C13: on a well-formed block, for every copy `tla`, every in-range slot index
`i` other than `ETLA`, `DTLA`, `TTLA` and every value `v`, after
`tla_store3(tla, i, v)` the block is still well-formed, every in-range slot
`j ≠ i` of the three copies holds its previous value, and memory outside the
three copies is unchanged; hence after any sequence of such calls the block is
well-formed and every copy still holds the three self pointers. -/
theorem tla_store3_preserves_wellFormed (p : Platform) (m : Mem) (blk : Block)
    (hwf : WellFormed p m blk) (tla : Nat) (htla : blk.hasCopy tla)
    (i : Int) (hi : slotInside p i) (hns : notSelfPointer i) (v : Int) :
    WellFormed p (tla_store3 p m tla i v) blk ∧
    (∀ x : Nat, blk.hasCopy x → ∀ j : Int, slotInside p j → j ≠ i →
      tla_load p (tla_store3 p m tla i v) x j = tla_load p m x j) ∧
    (∀ a : Nat, ¬ (tlaRegion p blk.etla).contains a →
      ¬ (tlaRegion p blk.dtla).contains a → ¬ (tlaRegion p blk.ttla).contains a →
      tla_store3 p m tla i v a = m a) ∧
    (∀ calls : List Store3Call, (∀ c ∈ calls, c.plain p blk) →
      WellFormed p (tla_store3_calls p m calls) blk ∧
      ∀ x : Nat, blk.hasCopy x → selfPointersAt p (tla_store3_calls p m calls) blk x) := by
  have hW := hwf.layout.1
  refine ⟨tla_store3_wellFormed hwf htla hi hns v, ?_, ?_, ?_⟩
  · intro x hx j hj hji
    exact tla_store3_other_slot hwf htla hi hns v hx hj hji
  · intro a hE hD hT
    apply tla_store3_elsewhere hwf htla hi hns v
    · intro h; rw [h] at hE
      exact hE (slotPointer_mem_tlaRegion p _ i hW hi (hwf.fits (Or.inl rfl)))
    · intro h; rw [h] at hD
      exact hD (slotPointer_mem_tlaRegion p _ i hW hi (hwf.fits (Or.inr (Or.inl rfl))))
    · intro h; rw [h] at hT
      exact hT (slotPointer_mem_tlaRegion p _ i hW hi (hwf.fits (Or.inr (Or.inr rfl))))
  · intro calls hall
    have hw := tla_store3_calls_wellFormed calls m hwf hall
    exact ⟨hw, fun x hx => hw.selfPointers hx⟩

/-- C13 (witness): on `sampleBlock`, after `tla_store3` of `5` to slot `ID`
through the disabled copy the block is well-formed, slot `JNI_ENV` of the
triggered copy and address `0` are unchanged, and after that call followed by a
store to `JNI_ENV` through the triggered copy the enabled copy still holds the
self pointers. -/
theorem tla_store3_preserves_wellFormed_witness :
    WellFormed sample64 sampleMem sampleBlock ∧
    WellFormed sample64
      (tla_store3 sample64 sampleMem sampleBlock.dtla ThreadLocal.ID.index 5)
      sampleBlock ∧
    tla_load sample64
      (tla_store3 sample64 sampleMem sampleBlock.dtla ThreadLocal.ID.index 5)
      sampleBlock.ttla ThreadLocal.JNI_ENV.index
      = tla_load sample64 sampleMem sampleBlock.ttla ThreadLocal.JNI_ENV.index ∧
    tla_store3 sample64 sampleMem sampleBlock.dtla ThreadLocal.ID.index 5 0
      = sampleMem 0 ∧
    selfPointersAt sample64
      (tla_store3_calls sample64 sampleMem
        [⟨sampleBlock.dtla, ThreadLocal.ID.index, 5⟩,
         ⟨sampleBlock.ttla, ThreadLocal.JNI_ENV.index, 6⟩])
      sampleBlock sampleBlock.etla :=
  have h := tla_store3_preserves_wellFormed sample64 sampleMem sampleBlock (by decide)
    sampleBlock.dtla (by decide) ThreadLocal.ID.index (by decide) (by decide) 5
  ⟨by decide, h.1,
   h.2.1 sampleBlock.ttla (by decide) ThreadLocal.JNI_ENV.index (by decide) (by decide),
   h.2.2.1 0 (by decide) (by decide) (by decide),
   (h.2.2.2 [⟨sampleBlock.dtla, ThreadLocal.ID.index, 5⟩,
      ⟨sampleBlock.ttla, ThreadLocal.JNI_ENV.index, 6⟩] (by decide)).2
     sampleBlock.etla (by decide)⟩

/-- C14: every declared `ThreadLocal` index is `< 24`, so for every block base
`b`, page size `P` and TLA size `S ≥ 24 * sizeof(Address)` of a block that lies
in the address space, for each copy base `X` among `E - S`, `E`, `E + S`
(`E = ETLA_FROM_TLBLOCK(b)`) and each declared name `n`, the word at
`tla_addressOf(X, n)` lies inside `[X, X + S)`; a declared slot of one copy
never overlaps a declared slot of another copy; and wherever the `int` product
`tlaSize() * 3` of `NATIVE_THREAD_LOCALS_FROM_TLBLOCK(b)` is defined
(`S ≤ INT_MAX / 3`) it never overlaps the native descriptor at that address
either. -/
theorem declared_slots_inside_copy (p : Platform) (b : Nat)
    (hW : 0 < p.wordSize) (hS : 24 * (p.wordSize : Int) ≤ p.tlaSize)
    (hlow : (p.wordSize : Int) ≤ b + p.pageSize)
    (hfit : (b : Int) + p.pageSize - p.wordSize + 3 * p.tlaSize
      + sizeofNativeThreadLocalsStruct p ≤ p.modulus) :
    (∀ n : ThreadLocal, 0 ≤ n.index ∧ n.index < 24) ∧
    (∀ x : Nat, (layoutBlock p b).hasCopy x → ∀ n : ThreadLocal,
      (x : Int) ≤ tla_addressOf p x n.index ∧
      (tla_addressOf p x n.index : Int) + p.wordSize ≤ x + p.tlaSize) ∧
    (∀ x y : Nat, (layoutBlock p b).hasCopy x → (layoutBlock p b).hasCopy y → x ≠ y →
      ∀ n k : ThreadLocal, (slotWord p x n.index).disjoint (slotWord p y k.index)) ∧
    (p.tlaSize ≤ INT_MAX / 3 →
      ∀ x : Nat, (layoutBlock p b).hasCopy x → ∀ n : ThreadLocal,
        (slotWord p x n.index).disjoint (nativeRegion p b) ∧
        tla_addressOf p x n.index + p.wordSize
          ≤ NATIVE_THREAD_LOCALS_FROM_TLBLOCK p b) := by
  have hsz : sizeofNativeThreadLocalsStruct p = 10 * p.wordSize := rfl
  obtain ⟨hT, hE, hD⟩ := copies_exact p b (by omega) hlow (by omega)
  have hfits : ∀ x : Nat, (layoutBlock p b).hasCopy x →
      (x : Int) + p.tlaSize ≤ p.modulus ∧
      (b : Int) + p.pageSize - p.wordSize ≤ x ∧
      (x : Int) ≤ b + p.pageSize - p.wordSize + 2 * p.tlaSize := by
    intro x hx
    rcases hx with rfl | rfl | rfl <;> omega
  have inside : ∀ x : Nat, (layoutBlock p b).hasCopy x → ∀ n : ThreadLocal,
      (x : Int) ≤ tla_addressOf p x n.index ∧
      (tla_addressOf p x n.index : Int) + p.wordSize ≤ x + p.tlaSize := by
    intro x hx n
    have e := tla_addressOf_inside p x n.index hW (n.slotInside hS) (hfits x hx).1
    obtain ⟨h0, h1⟩ := n.slotInside hS
    have hm : (n.index + 1) * (p.wordSize : Int)
        = n.index * (p.wordSize : Int) + p.wordSize := by ring
    have hn : 0 ≤ n.index * (p.wordSize : Int) := mul_nonneg h0 (Int.ofNat_nonneg _)
    omega
  refine ⟨?_, inside, ?_, ?_⟩
  · intro n; have := n.index_range; omega
  · intro x y hx hy hxy n k
    obtain ⟨a1, a2⟩ := inside x hx n
    obtain ⟨b1, b2⟩ := inside y hy k
    have hap : (x : Int) + p.tlaSize ≤ y ∨ (y : Int) + p.tlaSize ≤ x := by
      rcases hx with rfl | rfl | rfl <;> rcases hy with rfl | rfl | rfl <;> omega
    simp only [Region.disjoint, slotWord]
    omega
  · intro hS1 x hx n
    obtain ⟨-, -, -, hN⟩ := layout_exact p b (by omega) hS1 hlow (by omega)
    obtain ⟨a1, a2⟩ := inside x hx n
    obtain ⟨-, -, c3⟩ := hfits x hx
    simp only [Region.disjoint, slotWord, nativeRegion]
    refine ⟨?_, ?_⟩ <;> omega

/-- C14 (witness): on `sample64` with base `8192`, slot `STACK_REFERENCE_MAP_SIZE`
of the enabled copy ends inside the copy and overlaps neither slot
`SAFEPOINT_LATCH` of the disabled copy nor the native descriptor. -/
theorem declared_slots_inside_copy_witness :
    (tla_addressOf sample64 (layoutBlock sample64 8192).etla
        ThreadLocal.STACK_REFERENCE_MAP_SIZE.index : Int) + sample64.wordSize
      ≤ (layoutBlock sample64 8192).etla + sample64.tlaSize ∧
    (slotWord sample64 (layoutBlock sample64 8192).etla
        ThreadLocal.STACK_REFERENCE_MAP_SIZE.index).disjoint
      (slotWord sample64 (layoutBlock sample64 8192).dtla
        ThreadLocal.SAFEPOINT_LATCH.index) ∧
    (slotWord sample64 (layoutBlock sample64 8192).etla
        ThreadLocal.STACK_REFERENCE_MAP_SIZE.index).disjoint
      (nativeRegion sample64 8192) :=
  have h := declared_slots_inside_copy sample64 8192 (by decide) (by decide) (by decide)
    (by decide)
  ⟨(h.2.1 _ (by decide) ThreadLocal.STACK_REFERENCE_MAP_SIZE).2,
   h.2.2.1 _ _ (by decide) (by decide) (by decide)
     ThreadLocal.STACK_REFERENCE_MAP_SIZE ThreadLocal.SAFEPOINT_LATCH,
   (h.2.2.2 (by decide) _ (by decide) ThreadLocal.STACK_REFERENCE_MAP_SIZE).1⟩

end Maxine
